import Mathlib

/-!
Verification of the unit-conversion and display-normalization layer of the
pySigmaP GUI (src/app.py) against its design specification.

The embedding below translates the Python source into Lean definitions:

* Numeric values carried by the program (Python floats holding exact decimal
  constants and small integers) are modelled by `Frac`, an exact fraction of
  integers.  All arithmetic performed by the program on these values is exact
  in the reachable states, so the fraction model is faithful; `Frac.toRat`
  interprets a fraction as a rational number for the algebraic statements.
* Python float special values (NaN and the infinities) are modelled by
  `PyFloat`, since the data-normalization claims are about their propagation.
* Fallible operations (dictionary lookup in the unit registry) return
  `Option`.
* The matplotlib figure is modelled by `Figure`: a list of axes, each with a
  major and minor tick formatter, an x-axis label and an optional legend.
  Tick formatter objects are opaque in the source, so they are modelled
  symbolically by `TickF`; `fmt_tick` gives the numeric behaviour of the
  formatter installed by `apply_display_units`.
* `re.sub` over the two concrete patterns used by the source is embedded by
  an explicit left-to-right scanner (`scanSub`) together with a
  backtracking-faithful matcher for each pattern.
-/

/-! ## Exact fractions (values of Python floats in the program) -/

/-- An exact fraction of integers. Denominators are positive for every value
built by the embedded program (decimal literals, products and quotients of
positive constants). -/
structure Frac where
  num : ℤ
  den : ℤ
deriving DecidableEq, Repr

def Frac.mul (a b : Frac) : Frac := ⟨a.num * b.num, a.den * b.den⟩

def Frac.div (a b : Frac) : Frac :=
  if b.num < 0 then ⟨-(a.num * b.den), a.den * (-b.num)⟩
  else ⟨a.num * b.den, a.den * b.num⟩

def Frac.sub (a b : Frac) : Frac := ⟨a.num * b.den - b.num * a.den, a.den * b.den⟩

/-- Value comparison, valid when both denominators are positive. -/
def Frac.le (a b : Frac) : Bool := decide (a.num * b.den ≤ b.num * a.den)

/-- Strict value comparison, valid when both denominators are positive. -/
def Frac.lt (a b : Frac) : Bool := decide (a.num * b.den < b.num * a.den)

/-- The rational value a fraction denotes. -/
def Frac.toRat (a : Frac) : ℚ := (a.num : ℚ) / (a.den : ℚ)

def fracAbs (q : Frac) : Frac := ⟨|q.num|, |q.den|⟩

/-- Ten to an integer power, as a fraction. -/
def pow10 (e : ℤ) : Frac :=
  if 0 ≤ e then ⟨(10 : ℤ) ^ e.toNat, 1⟩ else ⟨1, (10 : ℤ) ^ (-e).toNat⟩

/-! ## UNITS and TO_KPA (src/app.py lines 36-52) -/

def UNITS : List String :=
  ["kPa", "MPa", "kN/m^2", "Pa", "psi", "psf", "ksf", "tsf", "bar", "kgf/cm^2"]

/-- The TO_KPA dictionary: scale factor to canonical kPa for each registered
unit, as the exact value of the decimal literal in the source. Lookup of an
unregistered unit is `none` (a KeyError in Python). -/
def TO_KPA : String → Option Frac
  | "kPa" => some ⟨1, 1⟩
  | "MPa" => some ⟨1000, 1⟩
  | "kN/m^2" => some ⟨1, 1⟩
  | "Pa" => some ⟨1, 1000⟩
  | "bar" => some ⟨100, 1⟩
  | "psi" => some ⟨6894757293168361, 1000000000000000⟩
  | "psf" => some ⟨4788025898033584, 100000000000000000⟩
  | "ksf" => some ⟨4788025898033584, 100000000000000⟩
  | "tsf" => some ⟨9576051796067168, 100000000000000⟩
  | "kgf/cm^2" => some ⟨980665, 10000⟩
  | _ => none

/-- to_kpa(x, unit) = float(x) * TO_KPA[unit]. -/
def to_kpa (x : Frac) (unit : String) : Option Frac :=
  (TO_KPA unit).map (fun k => x.mul k)

/-- from_kpa(x_kpa, unit) = float(x_kpa) / TO_KPA[unit]. -/
def from_kpa (x : Frac) (unit : String) : Option Frac :=
  (TO_KPA unit).map (fun k => x.div k)

/-! ## Python float values including non-finite ones -/

/-- A Python float as it appears in the stress series: a finite value, NaN,
or an infinity. -/
inductive PyFloat where
  | finite (val : Frac)
  | nan
  | inf
  | ninf
deriving DecidableEq, Repr

def PyFloat.isFinite : PyFloat → Bool
  | .finite _ => true
  | _ => false

/-- Multiplication of a Python float by a finite constant k, with IEEE-754
semantics for the non-finite values (NaN propagates; an infinity keeps or
flips its sign with the sign of k and becomes NaN when k is zero). -/
def pyMulConst (k : Frac) : PyFloat → PyFloat
  | .finite q => .finite (q.mul k)
  | .nan => .nan
  | .inf =>
      if 0 < k.num * k.den then .inf
      else if k.num * k.den < 0 then .ninf
      else .nan
  | .ninf =>
      if 0 < k.num * k.den then .ninf
      else if k.num * k.den < 0 then .inf
      else .nan

/-- series_to_kpa(s, unit) = s.astype(float) * TO_KPA[unit]: elementwise
scaling of the whole series; the only failure is an unregistered unit. -/
def series_to_kpa (s : List PyFloat) (unit : String) : Option (List PyFloat) :=
  (TO_KPA unit).map (fun k => s.map (pyMulConst k))

/-! ## The uploaded table and the data-preparation part of run_analysis
(src/app.py lines 164-173) -/

/-- The uploaded table, column-wise (pandas DataFrame): column 0 is stress,
column 1 axial strain, column 2 void ratio, further columns are ignored. -/
structure DataFrame where
  cols : List (List PyFloat)
deriving DecidableEq, Repr

/-- dfk = df.copy(); dfk.iloc[:, 0] = series_to_kpa(dfk.iloc[:, 0], csv_unit):
only the first column is replaced by its converted series. `none` models the
exceptions Python would raise (no column 0, or unregistered unit). -/
def run_analysis_prepare (df : DataFrame) (csv_unit : String) : Option DataFrame :=
  match df.cols with
  | [] => none
  | c0 :: rest => (series_to_kpa c0 csv_unit).map (fun c0k => ⟨c0k :: rest⟩)

/-- Data(dfk.iloc[:, :3], ...): the collaborator receives the first three
columns of the prepared table. -/
def data_table (df : DataFrame) : List (List PyFloat) := df.cols.take 3

/-! ## Character classes and a generic left-to-right substitution scanner -/

def isPyDigit (c : Char) : Bool := decide ('0' ≤ c) && decide (c ≤ '9')

def isPySpace (c : Char) : Bool :=
  c == ' ' || c == '\t' || c == '\n' || c == '\r' || c == Char.ofNat 11 || c == Char.ofNat 12

/-- Boolean check that `p` is a leading piece of `s`. -/
def isPfx : List Char → List Char → Bool
  | [], _ => true
  | _ :: _, [] => false
  | a :: as, b :: bs => if a = b then isPfx as bs else false

/-- The scanning loop shared by `re.sub` and `str.replace`: at each position
try the matcher `m`; on a match `some (out, rest)` emit `out` and continue
after the match, otherwise emit the current character and advance by one.
The fuel argument only serves termination; it is always instantiated with
the length of the input, which bounds the number of steps because every
match consumes at least one character. -/
def scanSub (m : List Char → Option (List Char × List Char)) : ℕ → List Char → List Char
  | 0, cs => cs
  | _ + 1, [] => []
  | fuel + 1, c :: cs =>
    match m (c :: cs) with
    | some (out, rest) => out ++ scanSub m fuel rest
    | none => c :: scanSub m fuel cs

def scanS (m : List Char → Option (List Char × List Char)) (cs : List Char) : List Char :=
  scanSub m cs.length cs

/-- Matcher for `str.replace(pat, rep)`: a verbatim occurrence of `pat`. -/
def matchRepAt (pat rep : List Char) (cs : List Char) : Option (List Char × List Char) :=
  if isPfx pat cs then some (rep, cs.drop pat.length) else none

def pyReplaceAll (pat rep : List Char) (cs : List Char) : List Char :=
  scanS (matchRepAt pat rep) cs

/-! ## Numeric rendering: Python `%.Nf` and `%.Ng` formatting of exact values -/

def digitsToNat (ds : List Char) : ℕ := ds.foldl (fun a c => a * 10 + (c.toNat - 48)) 0

/-- float(m.group(1)) for a group matched by `[0-9]*\.?[0-9]+`: an integer
part, optionally a dot and a fractional part. -/
def parseFloat (cs : List Char) : Frac :=
  let ip := cs.takeWhile isPyDigit
  let rest := cs.dropWhile isPyDigit
  match rest with
  | '.' :: fp =>
      ⟨(digitsToNat ip : ℤ) * (10 : ℤ) ^ fp.length + (digitsToNat fp : ℤ), (10 : ℤ) ^ fp.length⟩
  | _ => ⟨(digitsToNat ip : ℤ), 1⟩

/-- Round to the nearest integer, ties to even: the rounding IEEE-754
formatting performs when a value sits exactly on a tie, and ordinary
nearest-rounding otherwise. Valid for positive denominators. -/
def rndHalfEven (q : Frac) : ℤ :=
  let f := Int.fdiv q.num q.den
  let r := q.sub ⟨f, 1⟩
  if r.lt ⟨1, 2⟩ then f
  else if Frac.lt ⟨1, 2⟩ r then f + 1
  else if f % 2 = 0 then f else f + 1

/-- Decimal exponent search: for positive q returns e with 10^e ≤ q < 10^(e+1).
Fuel-driven; the fuel passed by `decExp` always suffices. -/
def decExpAux : ℕ → Frac → ℤ → ℤ
  | 0, _, acc => acc
  | fuel + 1, q, acc =>
    if q.lt ⟨1, 1⟩ then decExpAux fuel ⟨q.num * 10, q.den⟩ (acc - 1)
    else if q.lt ⟨10, 1⟩ then acc
    else decExpAux fuel ⟨q.num, q.den * 10⟩ (acc + 1)

def decExp (q : Frac) : ℤ := decExpAux (q.num.natAbs + q.den.natAbs + 2) q 0

/-- Remove trailing zero digits (the `g` format never shows them). -/
def stripZeros (fp : List Char) : List Char := (fp.reverse.dropWhile (fun c => c == '0')).reverse

/-- Python fixed-point formatting `f"{q:.{prec}f}"` of an exact value. -/
def fmtFixed (prec : ℕ) (q : Frac) : String :=
  let sgn := if q.num * q.den < 0 then "-" else ""
  let n := (rndHalfEven ((fracAbs q).mul ⟨(10 : ℤ) ^ prec, 1⟩)).toNat
  let ds := (toString n).toList
  if prec = 0 then sgn ++ ds.asString
  else
    let ds2 := List.replicate (prec + 1 - ds.length) '0' ++ ds
    sgn ++ (ds2.take (ds2.length - prec)).asString ++ "." ++ (ds2.drop (ds2.length - prec)).asString

/-- Python `g` formatting of a positive exact value at precision p ≥ 1:
round to p significant digits, use fixed notation when the decimal exponent
is in [-4, p) and scientific notation otherwise, and strip trailing zeros. -/
def fmtGpos (p : ℕ) (q : Frac) : String :=
  let e0 := decExp q
  let m0 := rndHalfEven (q.div (pow10 (e0 - (p : ℤ) + 1)))
  let roll := m0 = (10 : ℤ) ^ p
  let m := if roll then (10 : ℤ) ^ (p - 1) else m0
  let e := if roll then e0 + 1 else e0
  let ds := (toString m.toNat).toList
  if -4 ≤ e ∧ e < (p : ℤ) then
    if 0 ≤ e then
      let ip := ds.take (e.toNat + 1)
      let fp := stripZeros (ds.drop (e.toNat + 1))
      if fp.isEmpty then ip.asString else ip.asString ++ "." ++ fp.asString
    else
      "0." ++ (stripZeros (List.replicate (-(e + 1)).toNat '0' ++ ds)).asString
  else
    let d1 := ds.take 1
    let fr := stripZeros (ds.drop 1)
    let mant := if fr.isEmpty then d1.asString else d1.asString ++ "." ++ fr.asString
    let esgn := if e < 0 then "-" else "+"
    let eds := (toString e.natAbs).toList
    mant ++ "e" ++ esgn ++ (List.replicate (2 - eds.length) '0' ++ eds).asString

/-- Python `f"{q:.{p}g}"` of an exact value. -/
def fmtG (p : ℕ) (q : Frac) : String :=
  if q.num = 0 then "0"
  else if q.num * q.den < 0 then "-" ++ fmtGpos p (fracAbs q)
  else fmtGpos p q

/-! ## The display renderer apply_display_units (src/app.py lines 90-137) -/

/-- The tick formatter fmt installed for a non-canonical target unit: the
tick value (in kPa) times the factor, compact `.6g` rendering, and "0" for
zero (src/app.py lines 95-101). -/
def fmt_tick (factor : Frac) (val : Frac) : String :=
  let y := val.mul factor
  if y.num = 0 then "0" else fmtG 6 y

/-- Symbolic state of a matplotlib tick formatter slot: whatever formatter
the figure arrived with, the FuncFormatter(fmt) converting kPa ticks to the
named target unit (numeric behaviour `fmt_tick`), or the blanking
FuncFormatter installed on minor ticks. -/
inductive TickF where
  | original (id : ℕ)
  | funcConverted (unit : String)
  | blank
deriving DecidableEq, Repr

structure LegendBox where
  title : Option String
  texts : List String
deriving DecidableEq, Repr

structure PlotAxis where
  major : TickF
  minor : TickF
  xlabel : String
  legend : Option LegendBox
deriving DecidableEq, Repr

structure Figure where
  axes : List PlotAxis
deriving DecidableEq, Repr

def kPaTok : List Char := ['k', 'P', 'a']

/-- All the ways the group `[0-9]*\.?[0-9]+` can match a leading piece of
`pre ++ r` by extending `pre` with the final `[0-9]+` from `r`, longest
first, as the regex backtracking engine tries them. -/
def tailDigits (pre r : List Char) : List (List Char × List Char) :=
  let n := (r.takeWhile isPyDigit).length
  (List.range n).map (fun t => (pre ++ r.take (n - t), r.drop (n - t)))

/-- All candidate matches of `[0-9]*\.?[0-9]+` at the head of `cs`, in the
preference order of the backtracking engine: the leading `[0-9]*` longest
first, then with the optional dot before without. -/
def numCandidates (cs : List Char) : List (List Char × List Char) :=
  let m := (cs.takeWhile isPyDigit).length
  ((List.range (m + 1)).map (fun t =>
    let i := m - t
    let d1 := cs.take i
    let r1 := cs.drop i
    (match r1 with
     | '.' :: r2 => tailDigits (d1 ++ ['.']) r2
     | _ => []) ++ tailDigits d1 r1)).flatten

/-- The `\s*kPa` continuation of the pattern: greedy whitespace then the
literal canonical token; returns what follows the whole match. -/
def kpaTail (r : List Char) : Option (List Char) :=
  let r2 := r.dropWhile isPySpace
  if isPfx kPaTok r2 then some (r2.drop kPaTok.length) else none

/-- Matcher for re.sub(r"([0-9]*\.?[0-9]+)\s*kPa", repl, s) at one position:
the first group candidate whose continuation matches wins, and the match is
replaced by `repl` applied to the group. -/
def matchNumKpa (repl : List Char → List Char) (cs : List Char) :
    Option (List Char × List Char) :=
  (numCandidates cs).findSome? (fun p => (kpaTail p.2).map (fun rest => (repl p.1, rest)))

/-- The repl closure (src/app.py lines 120-130): convert the matched number
to the target unit and re-render it with tiered precision, then append the
unit symbol. -/
def legend_repl (factor : Frac) (unit : String) (num : List Char) : List Char :=
  let y := (parseFloat num).mul factor
  let s :=
    if Frac.le ⟨100, 1⟩ y then fmtFixed 0 y
    else if Frac.le ⟨10, 1⟩ y then fmtFixed 1 y
    else fmtG 3 y
  (s ++ " " ++ unit).toList

/-- One legend entry text under apply_display_units: the numeric-token
substitution followed by the verbatim "[kPa]" replacement. -/
def legend_text_rw (factor : Frac) (unit : String) (s : String) : String :=
  let s2 := scanS (matchNumKpa (legend_repl factor unit)) s.toList
  let s3 := pyReplaceAll ('[' :: kPaTok ++ [']']) ('[' :: unit.toList ++ [']']) s2
  s3.asString

def strContains : List Char → List Char → Bool
  | [], pat => pat.isEmpty
  | c :: t, pat => isPfx pat (c :: t) || strContains t pat

def pyStrip (cs : List Char) : List Char :=
  ((cs.dropWhile isPySpace).reverse.dropWhile isPySpace).reverse

/-- The x-label rewrite (src/app.py lines 109-115): substitute the canonical
symbol if present, else append the bracketed target unit to a non-blank
label, else install the default label naming the target unit. -/
def rewrite_xlabel (xlabel unit : String) : String :=
  let cs := xlabel.toList
  if strContains cs kPaTok then (pyReplaceAll kPaTok unit.toList cs).asString
  else if (pyStrip cs).isEmpty = false then xlabel ++ " [" ++ unit ++ "]"
  else "Effective vertical stress, sigma'v [" ++ unit ++ "]"

/-- The per-axis effect of apply_display_units for a non-canonical unit. -/
def transform_axis (factor : Frac) (unit : String) (ax : PlotAxis) : PlotAxis :=
  { major := TickF.funcConverted unit
    minor := TickF.blank
    xlabel := rewrite_xlabel ax.xlabel unit
    legend := ax.legend.map (fun lg => { lg with texts := lg.texts.map (legend_text_rw factor unit) }) }

/-- apply_display_units(fig, unit): return the figure untouched when the
target unit is the canonical symbol "kPa"; otherwise compute
factor = 1 / TO_KPA[unit] (`none` models the KeyError on an unregistered
unit) and rewrite every axis. -/
def apply_display_units (fig : Figure) (unit : String) : Option Figure :=
  if unit = "kPa" then some fig
  else (TO_KPA unit).map (fun k => ⟨fig.axes.map (transform_axis (Frac.div ⟨1, 1⟩ k) unit)⟩)

/-! ## The legend sanitizer (src/app.py lines 64-68) -/

/-- The backslash character. -/
def BS : Char := '\\'

/-- The opening brace character. -/
def LB : Char := Char.ofNat 123

/-- The closing brace character. -/
def RB : Char := Char.ofNat 125

def TEXTBF : List Char := [BS, 't', 'e', 'x', 't', 'b', 'f', LB]

def MATHBF : List Char := [BS, 'm', 'a', 't', 'h', 'b', 'f', LB]

/-- Matcher at one position for the pattern `\\name([^|RB|]*)|RB|` used by the
sanitizer (with `name` the literal opener including its brace): the argument
is everything up to the first closing brace, which must exist; the
replacement emitted is the argument itself. -/
def matchTexAt (name : List Char) (cs : List Char) : Option (List Char × List Char) :=
  if isPfx name cs then
    match ((cs.drop name.length).dropWhile (fun c => c != RB)) with
    | _ :: rest => some ((cs.drop name.length).takeWhile (fun c => c != RB), rest)
    | [] => none
  else none

def subTex (name : List Char) (cs : List Char) : List Char :=
  scanS (matchTexAt name) cs

/-- The sanitizer _strip_tex_macros of the source: unwrap the bold markup
command and the math-bold command, then collapse the three spacing escapes
to single spaces, in that order. -/
def strip_tex_markup (s : String) : String :=
  let c1 := subTex TEXTBF s.toList
  let c2 := subTex MATHBF c1
  let c3 := pyReplaceAll [BS, ','] [' '] c2
  let c4 := pyReplaceAll [BS, ';'] [' '] c3
  let c5 := pyReplaceAll [BS, ':'] [' '] c4
  c5.asString

/-! ## Grammar of legend texts made of plain characters and complete,
non-nested markup tokens, used to state on which inputs the sanitizer is
idempotent. -/

/-- One lexical piece of a legend string: a plain character, a complete bold
or math-bold command with its argument, or one of the three spacing
escapes. -/
inductive LegendTok where
  | plain (c : Char)
  | tbold (a : List Char)
  | mbold (a : List Char)
  | sp1
  | sp2
  | sp3
deriving DecidableEq, Repr

def tokRender : LegendTok → List Char
  | .plain c => [c]
  | .tbold a => TEXTBF ++ a ++ [RB]
  | .mbold a => MATHBF ++ a ++ [RB]
  | .sp1 => [BS, ',']
  | .sp2 => [BS, ';']
  | .sp3 => [BS, ':']

/-- Well-formedness of a token: plain characters are not backslashes (a
backslash occurs only as the start of a complete token), and command
arguments contain neither a backslash (no nested command) nor a closing
brace. -/
def tokOk : LegendTok → Prop
  | .plain c => c ≠ BS
  | .tbold a => ∀ c ∈ a, c ≠ BS ∧ c ≠ RB
  | .mbold a => ∀ c ∈ a, c ≠ BS ∧ c ≠ RB
  | _ => True

def renderToks (ts : List LegendTok) : List Char := (ts.map tokRender).flatten

/-- What sanitization leaves of one token. -/
def tokClean : LegendTok → List Char
  | .plain c => [c]
  | .tbold a => a
  | .mbold a => a
  | .sp1 => [' ']
  | .sp2 => [' ']
  | .sp3 => [' ']

/-- Token-level effect of the bold-command pass. -/
def actT : LegendTok → List LegendTok
  | .tbold a => a.map .plain
  | t => [t]

/-- Token-level effect of the math-bold pass. -/
def actM : LegendTok → List LegendTok
  | .mbold a => a.map .plain
  | t => [t]

/-- Token-level effect of one spacing-escape replacement pass. -/
def actSp (t0 : LegendTok) : LegendTok → List LegendTok :=
  fun t => if t = t0 then [.plain ' '] else [t]

/-! ## The method dispatcher (src/app.py lines 181-205) -/

/-- A collaborator constructor together with the parameters of its
getSigmaP invocation. -/
inductive ModelCall where
  | casagrande (loglog : Bool)
  | pachecoSilva
  | boone
  | bilog (opt : ℕ)
  | wangAndFrost
  | beckerEtAl
deriving DecidableEq, Repr

def strStartsWith (s pat : String) : Bool := isPfx pat.toList s.toList

/-- The if/elif dispatch of run_analysis on the selected method name. -/
def choose_model (method_name : String) : ModelCall :=
  if method_name = "Casagrande" then .casagrande true
  else if method_name = "Pacheco Silva" then .pachecoSilva
  else if method_name = "Boone" then .boone
  else if strStartsWith method_name "Butterfield" then .bilog 1
  else if strStartsWith method_name "Oikawa" then .bilog 2
  else if strStartsWith method_name "Onitsuka" then .bilog 3
  else if strStartsWith method_name "Wang" then .wangAndFrost
  else .beckerEtAl

def METHOD_NAMES : List String :=
  ["Casagrande", "Pacheco Silva", "Boone", "Butterfield (bilog)", "Oikawa (bilog)",
   "Onitsuka et al. (bilog)", "Wang & Frost (energy)", "Becker et al. (energy)"]

/-! ## Scalar-result probing (src/app.py lines 213-223) -/

def SIGMA_P_NAMES : List String := ["sigmaP", "sigma_p", "sigmap", "SigmaP"]

/-- The model object's attributes, as the probing loop observes them:
`none` when hasattr is false, `some none` when the attribute exists but
float() raises on it, `some (some v)` when it exists and converts to v. -/
def AttrView : Type := String → Option (Option Frac)

/-- The probing loop: walk the accepted spellings in order; take the first
attribute that exists and converts; on absence or a failed conversion move
on to the next spelling. -/
def probe_sigma_go (attrs : AttrView) : List String → Option Frac
  | [] => none
  | n :: rest =>
    match attrs n with
    | some (some v) => some v
    | _ => probe_sigma_go attrs rest

def probe_sigma_p (attrs : AttrView) : Option Frac :=
  probe_sigma_go attrs SIGMA_P_NAMES

/-- The metric text shown when a scalar was found: the value converted to
the display unit and rendered with `.3g` (src/app.py line 223). -/
def show_metric (display_unit : String) (attrs : AttrView) : Option String :=
  (probe_sigma_p attrs).bind (fun v => (from_kpa v display_unit).map (fun d => fmtG 3 d))

/-- The tail of run_analysis after the method ran: the rendered figure is
always delivered; the scalar metric accompanies it only when probing found
one. Probing failure is not an error. -/
def finish_analysis (fig : Figure) (display_unit : String) (attrs : AttrView) :
    Figure × Option String :=
  (fig, show_metric display_unit attrs)

/-! ## Concrete inputs used in the claim instances -/

/-- A figure with one axis whose legend carries a bracketed-unit entry and a
bare numeric-token entry. -/
def exFigC1 : Figure :=
  ⟨[{ major := TickF.original 0
      minor := TickF.original 1
      xlabel := "Effective stress [kPa]"
      legend := some ⟨none, ["value = 200 [kPa]", "value = 200 kPa"]⟩ }]⟩

def exFigC5 : Figure :=
  ⟨[{ major := TickF.original 0
      minor := TickF.original 1
      xlabel := "Effective stress [kPa]"
      legend := some ⟨none, ["sigma = 200 kPa"]⟩ }]⟩

def figLegendTexts (fig : Figure) : List (List String) :=
  fig.axes.map (fun ax => (ax.legend.map LegendBox.texts).getD [])

/-- A matcher consumes part of its input: what follows a match is strictly
shorter than the input. Both matchers used by the program satisfy this, so
running the scanner with fuel = input length performs the full scan. -/
def Consuming (m : List Char → Option (List Char × List Char)) : Prop :=
  ∀ cs out rest, m cs = some (out, rest) → rest.length < cs.length

/-- The token-level composition of the sanitizer's five passes. -/
def chain5 (ts : List LegendTok) : List LegendTok :=
  (((((((((ts.map actT).flatten).map actM).flatten).map
    (actSp .sp1)).flatten).map (actSp .sp2)).flatten).map (actSp .sp3)).flatten

/-! # Theorems -/

/-! ## Generic facts about the substitution scanner -/

theorem isPfx_eq_append : ∀ p s, isPfx p s = true → s = p ++ s.drop p.length
  | [], s, _ => by simp
  | _ :: _, [], h => by simp [isPfx] at h
  | a :: as, b :: bs, h => by
    by_cases hab : a = b
    · subst hab
      have h' : isPfx as bs = true := by simpa [isPfx] using h
      have e := isPfx_eq_append as bs h'
      simpa [List.drop_succ_cons] using congrArg (a :: ·) e
    · simp [isPfx, hab] at h

theorem isPfx_self_append : ∀ p s, isPfx p (p ++ s) = true
  | [], _ => rfl
  | a :: as, s => by simp [isPfx, isPfx_self_append as s]

theorem isPfx_cons_ne (a : Char) (as : List Char) (b : Char) (bs : List Char) (h : a ≠ b) :
    isPfx (a :: as) (b :: bs) = false := by
  simp [isPfx, h]

theorem scanSub_fuel (m : List Char → Option (List Char × List Char)) (hm : Consuming m) :
    ∀ fuel cs, cs.length ≤ fuel → scanSub m fuel cs = scanS m cs := by
  intro fuel
  induction fuel using Nat.strong_induction_on with
  | _ fuel ih =>
    intro cs hcs
    cases fuel with
    | zero =>
      cases cs with
      | nil => rfl
      | cons c cs => simp at hcs
    | succ fuel =>
      cases cs with
      | nil => rfl
      | cons c cs =>
        have hcs' : cs.length ≤ fuel := by simpa using hcs
        cases h : m (c :: cs) with
        | none =>
          have e1 : scanSub m (fuel + 1) (c :: cs) = c :: scanSub m fuel cs := by
            simp [scanSub, h]
          have e2 : scanS m (c :: cs) = c :: scanSub m cs.length cs := by
            simp [scanS, scanSub, h]
          rw [e1, e2, ih fuel (Nat.lt_succ_self fuel) cs hcs',
            ih cs.length (Nat.lt_succ_of_le hcs') cs (le_refl _)]
        | some p =>
          obtain ⟨out, rest⟩ := p
          have hr : rest.length ≤ cs.length := by
            have hlt := hm (c :: cs) out rest h
            simp at hlt
            omega
          have e1 : scanSub m (fuel + 1) (c :: cs) = out ++ scanSub m fuel rest := by
            simp [scanSub, h]
          have e2 : scanS m (c :: cs) = out ++ scanSub m cs.length rest := by
            simp [scanS, scanSub, h]
          rw [e1, e2, ih fuel (Nat.lt_succ_self fuel) rest (le_trans hr hcs'),
            ih cs.length (Nat.lt_succ_of_le hcs') rest hr]

theorem scanS_cons_none (m : List Char → Option (List Char × List Char)) (c : Char)
    (cs : List Char) (h : m (c :: cs) = none) : scanS m (c :: cs) = c :: scanS m cs := by
  simp [scanS, scanSub, h]

theorem scanS_cons_some (m : List Char → Option (List Char × List Char)) (hm : Consuming m)
    (c : Char) (cs out rest : List Char) (h : m (c :: cs) = some (out, rest)) :
    scanS m (c :: cs) = out ++ scanS m rest := by
  have hr : rest.length ≤ cs.length := by
    have hlt := hm (c :: cs) out rest h
    simp at hlt
    omega
  have e2 : scanS m (c :: cs) = out ++ scanSub m cs.length rest := by
    simp [scanS, scanSub, h]
  rw [e2, scanSub_fuel m hm cs.length rest hr]

theorem scanS_match (m : List Char → Option (List Char × List Char)) (hm : Consuming m)
    (cs out rest : List Char) (hne : cs ≠ []) (h : m cs = some (out, rest)) :
    scanS m cs = out ++ scanS m rest := by
  cases cs with
  | nil => exact absurd rfl hne
  | cons c cs => exact scanS_cons_some m hm c cs out rest h

theorem consuming_matchTexAt (name : List Char) (hn : name ≠ []) :
    Consuming (matchTexAt name) := by
  intro cs out rest h
  unfold matchTexAt at h
  split at h
  · rename_i hp
    split at h
    · rename_i d rest' heq
      simp only [Option.some.injEq, Prod.mk.injEq] at h
      obtain ⟨h1, h2⟩ := h
      subst h2
      have e := isPfx_eq_append name cs hp
      have hlen : cs.length = name.length + (cs.drop name.length).length := by
        nth_rewrite 1 [e]
        simp
      have hsplit : ((cs.drop name.length).takeWhile (fun c => c != RB)).length
          + (d :: rest').length = (cs.drop name.length).length := by
        rw [← heq, ← List.length_append, List.takeWhile_append_dropWhile]
      have hname : 1 ≤ name.length := List.length_pos.mpr hn
      simp at hsplit
      omega
    · exact absurd h (by simp)
  · exact absurd h (by simp)

theorem consuming_matchRepAt (pat rep : List Char) (hp : pat ≠ []) :
    Consuming (matchRepAt pat rep) := by
  intro cs out rest h
  unfold matchRepAt at h
  split at h
  · rename_i hpf
    simp only [Option.some.injEq, Prod.mk.injEq] at h
    obtain ⟨h1, h2⟩ := h
    subst h2
    have e := isPfx_eq_append pat cs hpf
    have hlen : cs.length = pat.length + (cs.drop pat.length).length := by
      nth_rewrite 1 [e]
      simp
    have hl : 1 ≤ pat.length := List.length_pos.mpr hp
    omega
  · exact absurd h (by simp)

theorem scanS_skip_run (m : List Char → Option (List Char × List Char))
    (hnone : ∀ c cs, c ≠ BS → m (c :: cs) = none) :
    ∀ zs cs, (∀ c ∈ zs, c ≠ BS) → scanS m (zs ++ cs) = zs ++ scanS m cs := by
  intro zs
  induction zs with
  | nil => simp
  | cons z zs ih =>
    intro cs hz
    rw [List.cons_append, scanS_cons_none m z (zs ++ cs) (hnone z _ (hz z (by simp))),
      ih cs (fun c hc => hz c (by simp [hc]))]
    rfl

theorem scanS_id_of_clean (m : List Char → Option (List Char × List Char))
    (hnone : ∀ c cs, c ≠ BS → m (c :: cs) = none)
    (zs : List Char) (hz : ∀ c ∈ zs, c ≠ BS) : scanS m zs = zs := by
  have e := scanS_skip_run m hnone zs [] hz
  have enil : scanS m [] = [] := rfl
  simpa [enil] using e

theorem matchTexAt_none_head (x : Char) (nm : List Char) (c : Char) (cs : List Char)
    (h : c ≠ x) : matchTexAt (x :: nm) (c :: cs) = none := by
  unfold matchTexAt
  rw [isPfx_cons_ne x nm c cs (Ne.symm h)]
  rfl

theorem matchRepAt_none_head (x : Char) (pt rep : List Char) (c : Char) (cs : List Char)
    (h : c ≠ x) : matchRepAt (x :: pt) rep (c :: cs) = none := by
  unfold matchRepAt
  rw [isPfx_cons_ne x pt c cs (Ne.symm h)]
  rfl

theorem hnoneT : ∀ c cs, c ≠ BS → matchTexAt TEXTBF (c :: cs) = none :=
  fun c cs h => matchTexAt_none_head BS ['t', 'e', 'x', 't', 'b', 'f', LB] c cs h

theorem hnoneM : ∀ c cs, c ≠ BS → matchTexAt MATHBF (c :: cs) = none :=
  fun c cs h => matchTexAt_none_head BS ['m', 'a', 't', 'h', 'b', 'f', LB] c cs h

theorem hnoneSp (y : Char) : ∀ c cs, c ≠ BS → matchRepAt [BS, y] [' '] (c :: cs) = none :=
  fun c cs h => matchRepAt_none_head BS [y] [' '] c cs h

theorem takeWhile_arg (a : List Char) (z : List Char) (ha : ∀ c ∈ a, c ≠ RB) :
    (a ++ RB :: z).takeWhile (fun c => c != RB) = a ∧
    (a ++ RB :: z).dropWhile (fun c => c != RB) = RB :: z := by
  induction a with
  | nil => constructor <;> simp
  | cons x a ih =>
    have hx : (x != RB) = true := by simpa using ha x (by simp)
    have ih' := ih (fun c hc => ha c (by simp [hc]))
    constructor
    · simp [List.takeWhile_cons, hx, ih'.1]
    · simp [List.dropWhile_cons, hx, ih'.2]

theorem matchTexAt_token (name a cs : List Char) (ha : ∀ c ∈ a, c ≠ RB) :
    matchTexAt name (name ++ (a ++ RB :: cs)) = some (a, cs) := by
  unfold matchTexAt
  rw [isPfx_self_append]
  simp only [if_true, List.drop_left]
  rw [(takeWhile_arg a cs ha).2, (takeWhile_arg a cs ha).1]

theorem matchRepAt_token (pat rep cs : List Char) :
    matchRepAt pat rep (pat ++ cs) = some (rep, cs) := by
  unfold matchRepAt
  rw [isPfx_self_append]
  simp [List.drop_left]

/-! ## Token-level behaviour of the sanitizer passes -/

theorem renderToks_cons (t : LegendTok) (ts : List LegendTok) :
    renderToks (t :: ts) = tokRender t ++ renderToks ts := by
  simp [renderToks]

theorem renderToks_append (a b : List LegendTok) :
    renderToks (a ++ b) = renderToks a ++ renderToks b := by
  simp [renderToks]

theorem renderToks_map_plain (a : List Char) : renderToks (a.map .plain) = a := by
  induction a with
  | nil => rfl
  | cons c a ih => simp [List.map_cons, renderToks_cons, tokRender, ih]

theorem scanS_tokens (m : List Char → Option (List Char × List Char))
    (act : LegendTok → List LegendTok)
    (step : ∀ t R, tokOk t → scanS m (tokRender t ++ R) = renderToks (act t) ++ scanS m R) :
    ∀ ts, (∀ t ∈ ts, tokOk t) →
      scanS m (renderToks ts) = renderToks ((ts.map act).flatten) := by
  intro ts
  induction ts with
  | nil => simp [renderToks]; rfl
  | cons t ts ih =>
    intro h
    have h1 : tokOk t := h t (by simp)
    have h2 : ∀ x ∈ ts, tokOk x := fun x hx => h x (by simp [hx])
    rw [renderToks_cons, step t (renderToks ts) h1, ih h2, List.map_cons,
      List.flatten_cons, renderToks_append]

theorem step_textbf : ∀ t R, tokOk t →
    scanS (matchTexAt TEXTBF) (tokRender t ++ R)
      = renderToks (actT t) ++ scanS (matchTexAt TEXTBF) R := by
  intro t R ht
  cases t with
  | plain c =>
    have hc : c ≠ BS := ht
    rw [show tokRender (LegendTok.plain c) ++ R = [c] ++ R from rfl,
      scanS_skip_run _ hnoneT [c] R (by simpa using hc)]
    simp [actT, renderToks, tokRender]
  | tbold a =>
    have ht' : ∀ c ∈ a, c ≠ BS ∧ c ≠ RB := ht
    rw [show tokRender (LegendTok.tbold a) ++ R = TEXTBF ++ (a ++ RB :: R) from by
      simp [tokRender],
      scanS_match _ (consuming_matchTexAt TEXTBF (by simp [TEXTBF])) _ a R
        (by simp [TEXTBF]) (matchTexAt_token TEXTBF a R (fun c hc => (ht' c hc).2))]
    simp [actT, renderToks_map_plain]
  | mbold a =>
    have ht' : ∀ c ∈ a, c ≠ BS ∧ c ≠ RB := ht
    rw [show tokRender (LegendTok.mbold a) ++ R
        = BS :: ((['m', 'a', 't', 'h', 'b', 'f', LB] ++ a ++ [RB]) ++ R) from by
      simp [tokRender, MATHBF],
      scanS_cons_none _ BS _ rfl,
      scanS_skip_run _ hnoneT (['m', 'a', 't', 'h', 'b', 'f', LB] ++ a ++ [RB]) R ?hz]
    · simp [actT, tokRender, MATHBF, renderToks]
    case hz =>
      intro c hc
      simp at hc
      rcases hc with rfl | rfl | rfl | rfl | rfl | rfl | rfl | h | rfl
      any_goals decide
      exact (ht' c h).1
  | sp1 =>
    rw [show tokRender LegendTok.sp1 ++ R = BS :: (([','] : List Char) ++ R) from rfl,
      scanS_cons_none _ BS _ rfl,
      scanS_skip_run _ hnoneT [','] R (by decide)]
    simp [actT, renderToks, tokRender]
  | sp2 =>
    rw [show tokRender LegendTok.sp2 ++ R = BS :: (([';'] : List Char) ++ R) from rfl,
      scanS_cons_none _ BS _ rfl,
      scanS_skip_run _ hnoneT [';'] R (by decide)]
    simp [actT, renderToks, tokRender]
  | sp3 =>
    rw [show tokRender LegendTok.sp3 ++ R = BS :: (([':'] : List Char) ++ R) from rfl,
      scanS_cons_none _ BS _ rfl,
      scanS_skip_run _ hnoneT [':'] R (by decide)]
    simp [actT, renderToks, tokRender]

theorem step_mathbf : ∀ t R, tokOk t →
    scanS (matchTexAt MATHBF) (tokRender t ++ R)
      = renderToks (actM t) ++ scanS (matchTexAt MATHBF) R := by
  intro t R ht
  cases t with
  | plain c =>
    have hc : c ≠ BS := ht
    rw [show tokRender (LegendTok.plain c) ++ R = [c] ++ R from rfl,
      scanS_skip_run _ hnoneM [c] R (by simpa using hc)]
    simp [actM, renderToks, tokRender]
  | mbold a =>
    have ht' : ∀ c ∈ a, c ≠ BS ∧ c ≠ RB := ht
    rw [show tokRender (LegendTok.mbold a) ++ R = MATHBF ++ (a ++ RB :: R) from by
      simp [tokRender],
      scanS_match _ (consuming_matchTexAt MATHBF (by simp [MATHBF])) _ a R
        (by simp [MATHBF]) (matchTexAt_token MATHBF a R (fun c hc => (ht' c hc).2))]
    simp [actM, renderToks_map_plain]
  | tbold a =>
    have ht' : ∀ c ∈ a, c ≠ BS ∧ c ≠ RB := ht
    rw [show tokRender (LegendTok.tbold a) ++ R
        = BS :: ((['t', 'e', 'x', 't', 'b', 'f', LB] ++ a ++ [RB]) ++ R) from by
      simp [tokRender, TEXTBF],
      scanS_cons_none _ BS _ rfl,
      scanS_skip_run _ hnoneM (['t', 'e', 'x', 't', 'b', 'f', LB] ++ a ++ [RB]) R ?hz]
    · simp [actM, tokRender, TEXTBF, renderToks]
    case hz =>
      intro c hc
      simp at hc
      rcases hc with rfl | rfl | rfl | rfl | rfl | rfl | rfl | h | rfl
      any_goals decide
      exact (ht' c h).1
  | sp1 =>
    rw [show tokRender LegendTok.sp1 ++ R = BS :: (([','] : List Char) ++ R) from rfl,
      scanS_cons_none _ BS _ rfl,
      scanS_skip_run _ hnoneM [','] R (by decide)]
    simp [actM, renderToks, tokRender]
  | sp2 =>
    rw [show tokRender LegendTok.sp2 ++ R = BS :: (([';'] : List Char) ++ R) from rfl,
      scanS_cons_none _ BS _ rfl,
      scanS_skip_run _ hnoneM [';'] R (by decide)]
    simp [actM, renderToks, tokRender]
  | sp3 =>
    rw [show tokRender LegendTok.sp3 ++ R = BS :: (([':'] : List Char) ++ R) from rfl,
      scanS_cons_none _ BS _ rfl,
      scanS_skip_run _ hnoneM [':'] R (by decide)]
    simp [actM, renderToks, tokRender]

theorem step_sp1 : ∀ t R, tokOk t →
    scanS (matchRepAt [BS, ','] [' ']) (tokRender t ++ R)
      = renderToks (actSp .sp1 t) ++ scanS (matchRepAt [BS, ','] [' ']) R := by
  intro t R ht
  cases t with
  | plain c =>
    have hc : c ≠ BS := ht
    rw [show tokRender (LegendTok.plain c) ++ R = [c] ++ R from rfl,
      scanS_skip_run _ (hnoneSp ',') [c] R (by simpa using hc)]
    simp [actSp, renderToks, tokRender]
  | tbold a =>
    have ht' : ∀ c ∈ a, c ≠ BS ∧ c ≠ RB := ht
    rw [show tokRender (LegendTok.tbold a) ++ R
        = BS :: ((['t', 'e', 'x', 't', 'b', 'f', LB] ++ a ++ [RB]) ++ R) from by
      simp [tokRender, TEXTBF],
      scanS_cons_none _ BS _ rfl,
      scanS_skip_run _ (hnoneSp ',') (['t', 'e', 'x', 't', 'b', 'f', LB] ++ a ++ [RB]) R ?hz]
    · simp [actSp, tokRender, TEXTBF, renderToks]
    case hz =>
      intro c hc
      simp at hc
      rcases hc with rfl | rfl | rfl | rfl | rfl | rfl | rfl | h | rfl
      any_goals decide
      exact (ht' c h).1
  | mbold a =>
    have ht' : ∀ c ∈ a, c ≠ BS ∧ c ≠ RB := ht
    rw [show tokRender (LegendTok.mbold a) ++ R
        = BS :: ((['m', 'a', 't', 'h', 'b', 'f', LB] ++ a ++ [RB]) ++ R) from by
      simp [tokRender, MATHBF],
      scanS_cons_none _ BS _ rfl,
      scanS_skip_run _ (hnoneSp ',') (['m', 'a', 't', 'h', 'b', 'f', LB] ++ a ++ [RB]) R ?hz]
    · simp [actSp, tokRender, MATHBF, renderToks]
    case hz =>
      intro c hc
      simp at hc
      rcases hc with rfl | rfl | rfl | rfl | rfl | rfl | rfl | h | rfl
      any_goals decide
      exact (ht' c h).1
  | sp1 =>
    rw [show tokRender LegendTok.sp1 ++ R = [BS, ','] ++ R from rfl,
      scanS_match _ (consuming_matchRepAt [BS, ','] [' '] (by simp)) _ [' '] R
        (by simp) (matchRepAt_token [BS, ','] [' '] R)]
    simp [actSp, renderToks, tokRender]
  | sp2 =>
    rw [show tokRender LegendTok.sp2 ++ R = BS :: (([';'] : List Char) ++ R) from rfl,
      scanS_cons_none _ BS _ rfl,
      scanS_skip_run _ (hnoneSp ',') [';'] R (by decide)]
    simp [actSp, renderToks, tokRender]
  | sp3 =>
    rw [show tokRender LegendTok.sp3 ++ R = BS :: (([':'] : List Char) ++ R) from rfl,
      scanS_cons_none _ BS _ rfl,
      scanS_skip_run _ (hnoneSp ',') [':'] R (by decide)]
    simp [actSp, renderToks, tokRender]

theorem step_sp2 : ∀ t R, tokOk t →
    scanS (matchRepAt [BS, ';'] [' ']) (tokRender t ++ R)
      = renderToks (actSp .sp2 t) ++ scanS (matchRepAt [BS, ';'] [' ']) R := by
  intro t R ht
  cases t with
  | plain c =>
    have hc : c ≠ BS := ht
    rw [show tokRender (LegendTok.plain c) ++ R = [c] ++ R from rfl,
      scanS_skip_run _ (hnoneSp ';') [c] R (by simpa using hc)]
    simp [actSp, renderToks, tokRender]
  | tbold a =>
    have ht' : ∀ c ∈ a, c ≠ BS ∧ c ≠ RB := ht
    rw [show tokRender (LegendTok.tbold a) ++ R
        = BS :: ((['t', 'e', 'x', 't', 'b', 'f', LB] ++ a ++ [RB]) ++ R) from by
      simp [tokRender, TEXTBF],
      scanS_cons_none _ BS _ rfl,
      scanS_skip_run _ (hnoneSp ';') (['t', 'e', 'x', 't', 'b', 'f', LB] ++ a ++ [RB]) R ?hz]
    · simp [actSp, tokRender, TEXTBF, renderToks]
    case hz =>
      intro c hc
      simp at hc
      rcases hc with rfl | rfl | rfl | rfl | rfl | rfl | rfl | h | rfl
      any_goals decide
      exact (ht' c h).1
  | mbold a =>
    have ht' : ∀ c ∈ a, c ≠ BS ∧ c ≠ RB := ht
    rw [show tokRender (LegendTok.mbold a) ++ R
        = BS :: ((['m', 'a', 't', 'h', 'b', 'f', LB] ++ a ++ [RB]) ++ R) from by
      simp [tokRender, MATHBF],
      scanS_cons_none _ BS _ rfl,
      scanS_skip_run _ (hnoneSp ';') (['m', 'a', 't', 'h', 'b', 'f', LB] ++ a ++ [RB]) R ?hz]
    · simp [actSp, tokRender, MATHBF, renderToks]
    case hz =>
      intro c hc
      simp at hc
      rcases hc with rfl | rfl | rfl | rfl | rfl | rfl | rfl | h | rfl
      any_goals decide
      exact (ht' c h).1
  | sp2 =>
    rw [show tokRender LegendTok.sp2 ++ R = [BS, ';'] ++ R from rfl,
      scanS_match _ (consuming_matchRepAt [BS, ';'] [' '] (by simp)) _ [' '] R
        (by simp) (matchRepAt_token [BS, ';'] [' '] R)]
    simp [actSp, renderToks, tokRender]
  | sp1 =>
    rw [show tokRender LegendTok.sp1 ++ R = BS :: (([','] : List Char) ++ R) from rfl,
      scanS_cons_none _ BS _ rfl,
      scanS_skip_run _ (hnoneSp ';') [','] R (by decide)]
    simp [actSp, renderToks, tokRender]
  | sp3 =>
    rw [show tokRender LegendTok.sp3 ++ R = BS :: (([':'] : List Char) ++ R) from rfl,
      scanS_cons_none _ BS _ rfl,
      scanS_skip_run _ (hnoneSp ';') [':'] R (by decide)]
    simp [actSp, renderToks, tokRender]

theorem step_sp3 : ∀ t R, tokOk t →
    scanS (matchRepAt [BS, ':'] [' ']) (tokRender t ++ R)
      = renderToks (actSp .sp3 t) ++ scanS (matchRepAt [BS, ':'] [' ']) R := by
  intro t R ht
  cases t with
  | plain c =>
    have hc : c ≠ BS := ht
    rw [show tokRender (LegendTok.plain c) ++ R = [c] ++ R from rfl,
      scanS_skip_run _ (hnoneSp ':') [c] R (by simpa using hc)]
    simp [actSp, renderToks, tokRender]
  | tbold a =>
    have ht' : ∀ c ∈ a, c ≠ BS ∧ c ≠ RB := ht
    rw [show tokRender (LegendTok.tbold a) ++ R
        = BS :: ((['t', 'e', 'x', 't', 'b', 'f', LB] ++ a ++ [RB]) ++ R) from by
      simp [tokRender, TEXTBF],
      scanS_cons_none _ BS _ rfl,
      scanS_skip_run _ (hnoneSp ':') (['t', 'e', 'x', 't', 'b', 'f', LB] ++ a ++ [RB]) R ?hz]
    · simp [actSp, tokRender, TEXTBF, renderToks]
    case hz =>
      intro c hc
      simp at hc
      rcases hc with rfl | rfl | rfl | rfl | rfl | rfl | rfl | h | rfl
      any_goals decide
      exact (ht' c h).1
  | mbold a =>
    have ht' : ∀ c ∈ a, c ≠ BS ∧ c ≠ RB := ht
    rw [show tokRender (LegendTok.mbold a) ++ R
        = BS :: ((['m', 'a', 't', 'h', 'b', 'f', LB] ++ a ++ [RB]) ++ R) from by
      simp [tokRender, MATHBF],
      scanS_cons_none _ BS _ rfl,
      scanS_skip_run _ (hnoneSp ':') (['m', 'a', 't', 'h', 'b', 'f', LB] ++ a ++ [RB]) R ?hz]
    · simp [actSp, tokRender, MATHBF, renderToks]
    case hz =>
      intro c hc
      simp at hc
      rcases hc with rfl | rfl | rfl | rfl | rfl | rfl | rfl | h | rfl
      any_goals decide
      exact (ht' c h).1
  | sp3 =>
    rw [show tokRender LegendTok.sp3 ++ R = [BS, ':'] ++ R from rfl,
      scanS_match _ (consuming_matchRepAt [BS, ':'] [' '] (by simp)) _ [' '] R
        (by simp) (matchRepAt_token [BS, ':'] [' '] R)]
    simp [actSp, renderToks, tokRender]
  | sp1 =>
    rw [show tokRender LegendTok.sp1 ++ R = BS :: (([','] : List Char) ++ R) from rfl,
      scanS_cons_none _ BS _ rfl,
      scanS_skip_run _ (hnoneSp ':') [','] R (by decide)]
    simp [actSp, renderToks, tokRender]
  | sp2 =>
    rw [show tokRender LegendTok.sp2 ++ R = BS :: (([';'] : List Char) ++ R) from rfl,
      scanS_cons_none _ BS _ rfl,
      scanS_skip_run _ (hnoneSp ':') [';'] R (by decide)]
    simp [actSp, renderToks, tokRender]

theorem tokOk_actT : ∀ t, tokOk t → ∀ u ∈ actT t, tokOk u := by
  intro t ht u hu
  cases t with
  | tbold a =>
    have ht' : ∀ c ∈ a, c ≠ BS ∧ c ≠ RB := ht
    simp [actT] at hu
    obtain ⟨c, hc, rfl⟩ := hu
    exact (ht' c hc).1
  | plain c =>
    simp [actT] at hu
    subst hu
    exact ht
  | mbold a =>
    simp [actT] at hu
    subst hu
    exact ht
  | sp1 =>
    simp [actT] at hu
    subst hu
    exact ht
  | sp2 =>
    simp [actT] at hu
    subst hu
    exact ht
  | sp3 =>
    simp [actT] at hu
    subst hu
    exact ht

theorem tokOk_actM : ∀ t, tokOk t → ∀ u ∈ actM t, tokOk u := by
  intro t ht u hu
  cases t with
  | mbold a =>
    have ht' : ∀ c ∈ a, c ≠ BS ∧ c ≠ RB := ht
    simp [actM] at hu
    obtain ⟨c, hc, rfl⟩ := hu
    exact (ht' c hc).1
  | plain c =>
    simp [actM] at hu
    subst hu
    exact ht
  | tbold a =>
    simp [actM] at hu
    subst hu
    exact ht
  | sp1 =>
    simp [actM] at hu
    subst hu
    exact ht
  | sp2 =>
    simp [actM] at hu
    subst hu
    exact ht
  | sp3 =>
    simp [actM] at hu
    subst hu
    exact ht

theorem tokOk_actSp (t0 : LegendTok) : ∀ t, tokOk t → ∀ u ∈ actSp t0 t, tokOk u := by
  intro t ht u hu
  unfold actSp at hu
  split at hu
  · simp at hu
    subst hu
    exact (by decide : (' ' : Char) ≠ BS)
  · simp at hu
    subst hu
    exact ht

theorem tokOk_flatten_act (act : LegendTok → List LegendTok)
    (hact : ∀ t, tokOk t → ∀ u ∈ act t, tokOk u) :
    ∀ ts : List LegendTok, (∀ t ∈ ts, tokOk t) → ∀ u ∈ (ts.map act).flatten, tokOk u := by
  intro ts h u hu
  rw [List.mem_flatten] at hu
  obtain ⟨l, hl, hul⟩ := hu
  rw [List.mem_map] at hl
  obtain ⟨t, ht, rfl⟩ := hl
  exact hact t (h t ht) u hul

theorem strip_toList (cs : List Char) :
    (strip_tex_markup (cs.asString)).toList
      = scanS (matchRepAt [BS, ':'] [' ']) (scanS (matchRepAt [BS, ';'] [' '])
          (scanS (matchRepAt [BS, ','] [' ']) (scanS (matchTexAt MATHBF)
            (scanS (matchTexAt TEXTBF) cs)))) := rfl

theorem strip_renderToks (ts : List LegendTok) (h : ∀ t ∈ ts, tokOk t) :
    strip_tex_markup ((renderToks ts).asString) = (renderToks (chain5 ts)).asString := by
  have h1 := tokOk_flatten_act actT tokOk_actT ts h
  have h2 := tokOk_flatten_act actM tokOk_actM _ h1
  have h3 := tokOk_flatten_act (actSp .sp1) (tokOk_actSp _) _ h2
  have h4 := tokOk_flatten_act (actSp .sp2) (tokOk_actSp _) _ h3
  have e : (strip_tex_markup ((renderToks ts).asString)).toList = renderToks (chain5 ts) := by
    rw [strip_toList, scanS_tokens _ actT step_textbf ts h,
      scanS_tokens _ actM step_mathbf _ h1,
      scanS_tokens _ (actSp .sp1) step_sp1 _ h2,
      scanS_tokens _ (actSp .sp2) step_sp2 _ h3,
      scanS_tokens _ (actSp .sp3) step_sp3 _ h4]
    rfl
  have e2 : strip_tex_markup ((renderToks ts).asString)
      = ((strip_tex_markup ((renderToks ts).asString)).toList).asString := rfl
  rw [e2, e]

theorem flatten_act_plains (act : LegendTok → List LegendTok)
    (hact : ∀ c, act (.plain c) = [.plain c]) (a : List Char) :
    ((a.map LegendTok.plain).map act).flatten = a.map LegendTok.plain := by
  induction a with
  | nil => rfl
  | cons c a ih => simp only [List.map_cons, List.flatten_cons, hact, ih]; rfl

theorem chain5_append (a b : List LegendTok) : chain5 (a ++ b) = chain5 a ++ chain5 b := by
  simp [chain5]

theorem chain5_single : ∀ t, chain5 [t] = (tokClean t).map LegendTok.plain := by
  intro t
  cases t with
  | plain c => rfl
  | tbold a =>
    show chain5 [LegendTok.tbold a] = a.map LegendTok.plain
    unfold chain5
    rw [show ([LegendTok.tbold a].map actT).flatten = a.map LegendTok.plain from by
      simp [actT]]
    rw [flatten_act_plains actM (fun c => rfl),
      flatten_act_plains (actSp .sp1) (fun c => rfl),
      flatten_act_plains (actSp .sp2) (fun c => rfl),
      flatten_act_plains (actSp .sp3) (fun c => rfl)]
  | mbold a =>
    show chain5 [LegendTok.mbold a] = a.map LegendTok.plain
    unfold chain5
    rw [show ([LegendTok.mbold a].map actT).flatten = [LegendTok.mbold a] from rfl]
    rw [show ([LegendTok.mbold a].map actM).flatten = a.map LegendTok.plain from by
      simp [actM]]
    rw [flatten_act_plains (actSp .sp1) (fun c => rfl),
      flatten_act_plains (actSp .sp2) (fun c => rfl),
      flatten_act_plains (actSp .sp3) (fun c => rfl)]
  | sp1 => rfl
  | sp2 => rfl
  | sp3 => rfl

theorem renderToks_chain5 (ts : List LegendTok) :
    renderToks (chain5 ts) = (ts.map tokClean).flatten := by
  induction ts with
  | nil => rfl
  | cons t ts ih =>
    rw [show (t :: ts) = [t] ++ ts from rfl, chain5_append, renderToks_append, ih,
      chain5_single, renderToks_map_plain]
    simp

theorem clean_noBS (ts : List LegendTok) (h : ∀ t ∈ ts, tokOk t) :
    ∀ c ∈ (ts.map tokClean).flatten, c ≠ BS := by
  intro c hc
  rw [List.mem_flatten] at hc
  obtain ⟨l, hl, hcl⟩ := hc
  rw [List.mem_map] at hl
  obtain ⟨t, ht, rfl⟩ := hl
  have h1 := h t ht
  cases t with
  | plain c0 =>
    simp [tokClean] at hcl
    subst hcl
    exact h1
  | tbold a =>
    have h2 : ∀ x ∈ a, x ≠ BS ∧ x ≠ RB := h1
    simp [tokClean] at hcl
    exact (h2 c hcl).1
  | mbold a =>
    have h2 : ∀ x ∈ a, x ≠ BS ∧ x ≠ RB := h1
    simp [tokClean] at hcl
    exact (h2 c hcl).1
  | sp1 =>
    simp [tokClean] at hcl
    subst hcl
    decide
  | sp2 =>
    simp [tokClean] at hcl
    subst hcl
    decide
  | sp3 =>
    simp [tokClean] at hcl
    subst hcl
    decide

theorem strip_fixed (zs : List Char) (hz : ∀ c ∈ zs, c ≠ BS) :
    strip_tex_markup (zs.asString) = zs.asString := by
  have e : (strip_tex_markup (zs.asString)).toList = zs := by
    rw [strip_toList, scanS_id_of_clean _ hnoneT zs hz, scanS_id_of_clean _ hnoneM zs hz,
      scanS_id_of_clean _ (hnoneSp ',') zs hz, scanS_id_of_clean _ (hnoneSp ';') zs hz,
      scanS_id_of_clean _ (hnoneSp ':') zs hz]
  have e2 : strip_tex_markup (zs.asString)
      = ((strip_tex_markup (zs.asString)).toList).asString := rfl
  rw [e2, e]

/-! ## Claim theorems -/

/-- C4 counterexample: the sanitizer is not idempotent on nested bold
commands. One pass over the input (backslash)textbf(lbrace)(backslash)textbf
(lbrace)a(rbrace)(rbrace) leaves (backslash)textbf(lbrace)a(rbrace), because
the argument class excludes the closing brace so the match stops at the
inner one; a second pass then rewrites it further to just a. -/
theorem c4_counterexample :
    strip_tex_markup (strip_tex_markup "\\textbf\x7b\\textbf\x7ba\x7d\x7d")
      ≠ strip_tex_markup "\\textbf\x7b\\textbf\x7ba\x7d\x7d" := by decide

/-- C4 (amended): the sanitizer is idempotent on every legend text composed
of plain non-backslash characters, complete non-nested bold or math-bold
commands whose argument contains no backslash and no closing brace, and
spacing escapes: one pass removes every command and escape, leaving a
backslash-free text on which a second pass finds nothing to rewrite. -/
theorem c4_idempotent (ts : List LegendTok) (h : ∀ t ∈ ts, tokOk t) :
    strip_tex_markup (strip_tex_markup ((renderToks ts).asString))
      = strip_tex_markup ((renderToks ts).asString) := by
  have e1 := strip_renderToks ts h
  rw [e1, renderToks_chain5]
  exact strip_fixed _ (clean_noBS ts h)

/-- C4 witness: idempotence on the concrete legend built of a bold command,
a spacing escape and a plain character. -/
theorem c4_idempotent_witness :
    strip_tex_markup (strip_tex_markup ((renderToks
        [LegendTok.tbold ['a'], LegendTok.sp1, LegendTok.plain 'x']).asString))
      = strip_tex_markup ((renderToks
        [LegendTok.tbold ['a'], LegendTok.sp1, LegendTok.plain 'x']).asString) :=
  c4_idempotent [LegendTok.tbold ['a'], LegendTok.sp1, LegendTok.plain 'x'] (by
    intro t ht
    simp at ht
    rcases ht with rfl | rfl | rfl
    · exact (by decide : ∀ c ∈ ['a'], c ≠ BS ∧ c ≠ RB)
    · trivial
    · exact (by decide : ('x' : Char) ≠ BS))

/-- C1 counterexample: redisplaying the legend entry "value = 200 [kPa]" at
tsf does not produce "value = 2.09 [tsf]"; the figure's first legend entry
comes out as "value = 200 [tsf]" instead. -/
theorem c1_counterexample :
    ¬ ((apply_display_units exFigC1 "tsf").map figLegendTexts
        = some [["value = 2.09 [tsf]", "value = 2.09 tsf"]]) := by decide

/-- C1 (amended): redisplaying "value = 200 [kPa]" at tsf yields
"value = 200 [tsf]": the bracketed canonical token is replaced verbatim, but
the numeric token is not converted, because the opening bracket sits between
the number and the canonical symbol so the number-token pattern cannot
match. Conversion does happen for the unbracketed form: "value = 200 kPa"
becomes "value = 2.09 tsf" (200 divided by 95.76051796067168, rendered to 3
significant digits). -/
theorem c1_legend_rewrite :
    (apply_display_units exFigC1 "tsf").map figLegendTexts
      = some [["value = 200 [tsf]", "value = 2.09 tsf"]] := by decide

/-- C2 counterexample: at a unit of scale factor 1 the tiered legend
formatter renders the value 5 as "5", not "5.00": the third tier uses
3-significant-digit g-formatting, which strips trailing zeros. -/
theorem c2_counterexample :
    legend_repl (Frac.div ⟨1, 1⟩ ⟨1, 1⟩) "kN/m^2" ['5'] ≠ ("5.00 kN/m^2").toList := by decide

/-- C2 (amended): at a unit of scale factor 1 the tiered formatter renders
150 as "150" (0 decimals at or above 100), 15 as "15.0" (1 decimal in
[10,100)) and 5 as "5" (3 significant digits below 10, trailing zeros
stripped by the g format); the full legend rewrite shows all three tiers. -/
theorem c2_formatting_tiers :
    legend_repl (Frac.div ⟨1, 1⟩ ⟨1, 1⟩) "kN/m^2" ['1', '5', '0'] = ("150 kN/m^2").toList ∧
    legend_repl (Frac.div ⟨1, 1⟩ ⟨1, 1⟩) "kN/m^2" ['1', '5'] = ("15.0 kN/m^2").toList ∧
    legend_repl (Frac.div ⟨1, 1⟩ ⟨1, 1⟩) "kN/m^2" ['5'] = ("5 kN/m^2").toList ∧
    legend_text_rw (Frac.div ⟨1, 1⟩ ⟨1, 1⟩) "kN/m^2" "a = 150 kPa, b = 15 kPa, c = 5 kPa"
      = "a = 150 kN/m^2, b = 15.0 kN/m^2, c = 5 kN/m^2" := by decide

/-- C3 counterexample: normalizing a stress series holding a NaN or an
infinity succeeds and passes the non-finite values through; nothing raises a
ConversionError and no finiteness check exists in the code. -/
theorem c3_counterexample :
    series_to_kpa [PyFloat.nan] "kPa" = some [PyFloat.nan] ∧
    series_to_kpa [PyFloat.nan, PyFloat.inf] "psi"
      = some [PyFloat.nan, PyFloat.inf] := by decide

/-- C3 (amended): for every registered unit, series normalization always
succeeds, multiplying every element by the positive scale factor; every
non-finite element remains non-finite (NaN stays NaN, infinities keep their
sign under the positive factor), so non-finite data reaches the collaborator
unflagged. -/
theorem c3_nonfinite_passthrough (s : List PyFloat) (u : String) (k : Frac)
    (hk : TO_KPA u = some k) (hkpos : 0 < k.num * k.den) :
    series_to_kpa s u = some (s.map (pyMulConst k)) ∧
    (∀ x : PyFloat, (pyMulConst k x).isFinite = x.isFinite) ∧
    (s.map (pyMulConst k)).length = s.length := by
  refine ⟨by simp [series_to_kpa, hk], ?_, by simp⟩
  intro x
  cases x <;> simp [pyMulConst, PyFloat.isFinite, hkpos]

/-- C3 witness: normalization of the series [NaN, 2] under the psi unit,
with the NaN staying NaN. -/
theorem c3_nonfinite_passthrough_witness :
    series_to_kpa [PyFloat.nan, PyFloat.finite ⟨2, 1⟩] "psi"
      = some ([PyFloat.nan, PyFloat.finite ⟨2, 1⟩].map
          (pyMulConst ⟨6894757293168361, 1000000000000000⟩)) ∧
    (pyMulConst (⟨6894757293168361, 1000000000000000⟩ : Frac) PyFloat.nan).isFinite
      = PyFloat.nan.isFinite ∧
    ([PyFloat.nan, PyFloat.finite ⟨2, 1⟩].map
        (pyMulConst (⟨6894757293168361, 1000000000000000⟩ : Frac))).length
      = [PyFloat.nan, PyFloat.finite ⟨2, 1⟩].length := by
  have h := c3_nonfinite_passthrough [PyFloat.nan, PyFloat.finite ⟨2, 1⟩] "psi"
    ⟨6894757293168361, 1000000000000000⟩ rfl (by decide)
  exact ⟨h.1, h.2.1 PyFloat.nan, h.2.2⟩

/-- C5: the no-op test of the display renderer compares the target unit
symbol with "kPa", not the scale factor. The unit kN/m^2 also has factor 1,
yet the renderer still rewrites the figure: the major formatter becomes the
converting FuncFormatter, the minor formatter is blanked, the axis label is
renamed to kN/m^2 and the legend unit tokens are rewritten; the result
differs from the input figure. -/
theorem c5_symbol_not_factor :
    TO_KPA "kN/m^2" = some ⟨1, 1⟩ ∧
    (∀ fig : Figure, apply_display_units fig "kN/m^2"
        = some ⟨fig.axes.map (transform_axis (Frac.div ⟨1, 1⟩ ⟨1, 1⟩) "kN/m^2")⟩) ∧
    apply_display_units exFigC5 "kN/m^2"
      = some ⟨[{ major := TickF.funcConverted "kN/m^2"
                 minor := TickF.blank
                 xlabel := "Effective stress [kN/m^2]"
                 legend := some ⟨none, ["sigma = 200 kN/m^2"]⟩ }]⟩ ∧
    apply_display_units exFigC5 "kN/m^2" ≠ some exFigC5 := by
  exact ⟨rfl, fun fig => rfl, by decide, by decide⟩

/-- C6: for every registered unit and every well-formed value, converting to
canonical units and back returns the value exactly under exact rational
arithmetic: v * k / k = v since every registered factor is nonzero. Exact
equality in particular implies the 1e-9 relative tolerance of the claim. -/
theorem c6_roundtrip (u : String) (hu : u ∈ UNITS) (v : Frac) (hv : v.den ≠ 0) :
    ((to_kpa v u).bind (fun w => from_kpa w u)).map Frac.toRat = some v.toRat := by
  have hv' : (v.den : ℚ) ≠ 0 := Int.cast_ne_zero.mpr hv
  fin_cases hu <;>
  · simp [to_kpa, from_kpa, TO_KPA, Frac.mul, Frac.div, Frac.toRat]
    try push_cast
    try field_simp
    try ring

/-- C6 witness: the tsf round trip of the value 200 is exact. -/
theorem c6_roundtrip_witness :
    ((to_kpa ⟨200, 1⟩ "tsf").bind (fun w => from_kpa w "tsf")).map Frac.toRat
      = some (Frac.toRat ⟨200, 1⟩) :=
  c6_roundtrip "tsf" (by decide) ⟨200, 1⟩ (by decide)

/-- C7: preparing an uploaded table converts only the stress column: the
prepared table is the input with column 0 mapped elementwise through
multiplication by the scale factor (order and length preserved), every
later column is the identical object, and the collaborator receives the
first three columns of exactly that. -/
theorem c7_frame (c0 : List PyFloat) (rest : List (List PyFloat)) (u : String) (k : Frac)
    (hk : TO_KPA u = some k) :
    run_analysis_prepare ⟨c0 :: rest⟩ u = some ⟨(c0.map (pyMulConst k)) :: rest⟩ ∧
    (c0.map (pyMulConst k)).length = c0.length ∧
    (∀ i : ℕ, (c0.map (pyMulConst k))[i]? = (c0[i]?).map (pyMulConst k)) ∧
    (∀ j : ℕ, ((c0.map (pyMulConst k)) :: rest)[j + 1]? = (c0 :: rest)[j + 1]?) ∧
    data_table ⟨(c0.map (pyMulConst k)) :: rest⟩ = (c0.map (pyMulConst k)) :: rest.take 2 := by
  refine ⟨by simp [run_analysis_prepare, series_to_kpa, hk], by simp, ?_, ?_, ?_⟩
  · intro i
    simp [List.getElem?_map]
  · intro j
    rfl
  · simp [data_table]

/-- C7 witness: preparation of a concrete three-column table under MPa,
with the element-wise conversion checked at index 0. -/
theorem c7_frame_witness :
    run_analysis_prepare
        ⟨[PyFloat.finite ⟨1, 1⟩, PyFloat.nan]
          :: [[PyFloat.finite ⟨2, 1⟩], [PyFloat.finite ⟨3, 1⟩]]⟩ "MPa"
      = some ⟨([PyFloat.finite ⟨1, 1⟩, PyFloat.nan].map (pyMulConst ⟨1000, 1⟩))
          :: [[PyFloat.finite ⟨2, 1⟩], [PyFloat.finite ⟨3, 1⟩]]⟩ ∧
    ([PyFloat.finite ⟨1, 1⟩, PyFloat.nan].map (pyMulConst ⟨1000, 1⟩)).length
      = [PyFloat.finite ⟨1, 1⟩, PyFloat.nan].length ∧
    ([PyFloat.finite ⟨1, 1⟩, PyFloat.nan].map (pyMulConst (⟨1000, 1⟩ : Frac)))[0]?
      = ([PyFloat.finite ⟨1, 1⟩, PyFloat.nan][0]?).map (pyMulConst ⟨1000, 1⟩) := by
  have h := c7_frame [PyFloat.finite ⟨1, 1⟩, PyFloat.nan]
    [[PyFloat.finite ⟨2, 1⟩], [PyFloat.finite ⟨3, 1⟩]] "MPa" ⟨1000, 1⟩ rfl
  exact ⟨h.1, h.2.1, h.2.2.1 0⟩

/-- C8: applying the display renderer with the canonical unit "kPa" returns
the figure unchanged: every tick formatter, axis label and legend string is
exactly the input one, with no rewriting performed. -/
theorem c8_canonical_noop (fig : Figure) : apply_display_units fig "kPa" = some fig := rfl

/-- C9: the dispatcher maps each of the 8 method identifiers to exactly one
collaborator constructor with its invocation parameters: Casagrande (with
its loglog plotting flag), Pacheco Silva and Boone to their own models, the
three bilog identifiers to the Bilog model with option 1, 2 and 3, and the
two energy identifiers to WangAndFrost and BeckerEtAl. -/
theorem c9_dispatch :
    choose_model "Casagrande" = ModelCall.casagrande true ∧
    choose_model "Pacheco Silva" = ModelCall.pachecoSilva ∧
    choose_model "Boone" = ModelCall.boone ∧
    choose_model "Butterfield (bilog)" = ModelCall.bilog 1 ∧
    choose_model "Oikawa (bilog)" = ModelCall.bilog 2 ∧
    choose_model "Onitsuka et al. (bilog)" = ModelCall.bilog 3 ∧
    choose_model "Wang & Frost (energy)" = ModelCall.wangAndFrost ∧
    choose_model "Becker et al. (energy)" = ModelCall.beckerEtAl := by decide

theorem probe_go_eq (attrs : AttrView) :
    ∀ ns : List String,
      probe_sigma_go attrs ns = (ns.filterMap (fun n => (attrs n).bind id)).head?
  | [] => rfl
  | n :: ns => by
    cases h : attrs n with
    | none => simp [probe_sigma_go, h, probe_go_eq attrs ns]
    | some o =>
      cases o with
      | none => simp [probe_sigma_go, h, probe_go_eq attrs ns]
      | some v => simp [probe_sigma_go, h]

/-- C10: the probing loop returns the first spelling, in the fixed order of
SIGMA_P_NAMES, whose attribute exists and converts to a float - skipping
spellings that are absent and spellings whose conversion raises - and when
no spelling yields a scalar the analysis still succeeds, delivering the
figure with no metric. -/
theorem c10_probe (attrs : AttrView) (fig : Figure) (u : String) :
    probe_sigma_p attrs = (SIGMA_P_NAMES.filterMap (fun n => (attrs n).bind id)).head? ∧
    (probe_sigma_p attrs = none → finish_analysis fig u attrs = (fig, none)) := by
  refine ⟨probe_go_eq attrs SIGMA_P_NAMES, ?_⟩
  intro h
  simp [finish_analysis, show_metric, h]

/-- C10 witness: with no attribute present the probe returns nothing and the
analysis delivers the bare figure. -/
theorem c10_probe_witness :
    probe_sigma_p (fun _ => none) = none ∧
    finish_analysis ⟨[]⟩ "kPa" (fun _ => none) = (⟨[]⟩, none) := by
  have h := c10_probe (fun _ => none) ⟨[]⟩ "kPa"
  have h1 : probe_sigma_p (fun _ => none) = none := by
    rw [h.1]
    rfl
  exact ⟨h1, h.2 h1⟩
